import Mathlib

/-!
Verification development for the Chat-Message-Danmaku-System repository.

The Python source is shallowly embedded: pure fragments become Lean
functions, the stateful `ConnectionManager` becomes explicit state passing
over a `MgrState` record with an explicit object heap (so that Python's
copy-versus-reference distinction for `set` objects stays observable),
`datetime` values become `Int` milliseconds, and database access becomes a
value passed in (a snapshot list of rows, or an `Except`-valued lookup for
a query that can raise).  All definitions are translated from the source
files `src/connection_manager.py` and `src/app.py`; comments cite the
source lines they embed.
-/

namespace Danmaku

/-! ### ConnectionFilter (connection_manager.py lines 17-27)

`allowed_groups : Set[str]` is modelled as `Finset String`.  Group ids are
already strings throughout, so the source's `str(group_id)` coercion is the
identity here. -/

structure ConnectionFilter where
  enabled : Bool := false
  allowed_groups : Finset String := ∅
deriving DecidableEq

/-- Embeds `ConnectionFilter.should_receive` (connection_manager.py lines 23-27):
if the filter is not enabled every message is received, otherwise only
messages whose group id is in `allowed_groups`. -/
def ConnectionFilter.should_receive (f : ConnectionFilter) (group_id : String) : Bool :=
  if !f.enabled then
    true
  else
    group_id ∈ f.allowed_groups

/-- The inlined per-connection filter decision of `check_for_new_messages`
(app.py lines 752-764): `should_send` starts false; when the filter is
enabled it becomes true only if `allowed_groups` is non-empty and contains
the group id; when the filter is disabled it is true. -/
def appShouldSend (enabled : Bool) (allowed_groups : List String) (group_id : String) : Bool :=
  if enabled then
    allowed_groups ≠ [] && allowed_groups.contains group_id
  else
    true

/-! ### Session-id cache of ConnectionManager (connection_manager.py lines 218-224)

The Python `Dict[str, str]` is modelled as an association list where an
assignment prepends a binding and lookup returns the most recent binding;
this is observationally the same as a dict for `get`.  The source coerces
both key and value with `str(...)`; to keep that coercion observable the
arguments are values of a small Python-value type `PyVal`. -/

inductive PyVal where
  | str (s : String)
  | int (n : Int)
deriving DecidableEq

/-- Python's `str(...)` on the values we care about. -/
def pyStr : PyVal → String
  | .str s => s
  | .int n => toString n

/-- First-match lookup in an association list (Python `dict.get`). -/
def lookupStr : List (String × String) → String → Option String
  | [], _ => none
  | (k, v) :: rest, key => if k = key then some v else lookupStr rest key

/-- Embeds `ConnectionManager.cache_session_mapping` (connection_manager.py
lines 218-220): `self._session_to_group_cache[str(session_id)] = str(group_id)`. -/
def cache_session_mapping (cache : List (String × String)) (session_id group_id : PyVal) :
    List (String × String) :=
  (pyStr session_id, pyStr group_id) :: cache

/-- Embeds `ConnectionManager.get_cached_group_id` (connection_manager.py
lines 222-224): `self._session_to_group_cache.get(str(session_id))`. -/
def get_cached_group_id (cache : List (String × String)) (session_id : PyVal) : Option String :=
  lookupStr cache (pyStr session_id)

/-! ### ConnectionManager (connection_manager.py lines 47-215)

Python `set` objects are mutable heap objects, and `connect` /
`set_global_filter` deliberately `.copy()` them; to keep that observable the
state carries an explicit heap `store : List (Finset String)` of set
objects, addressed by allocation index.  A `Conn` models one
`ManagedConnection`: `handle` is the identity of its `websocket` object
(distinct per accepted connection), `filterEnabled` is `filter.enabled`,
and `allowedRef` is the heap address of the `filter.allowed_groups` set
object. -/

structure Conn where
  handle : Nat
  filterEnabled : Bool
  allowedRef : Nat
deriving DecidableEq

structure MgrState where
  conns : List Conn
  globalFilterEnabled : Bool
  globalAllowedRef : Nat
  store : List (Finset String)
deriving DecidableEq

/-- Dereference a heap address (out-of-range reads default to `∅`; the
operations below only ever read addresses they allocated). -/
def readRef (st : MgrState) (r : Nat) : Finset String :=
  st.store.getD r ∅

/-- Embeds `ConnectionManager.connect` (connection_manager.py lines 88-108): the new
connection's filter inherits `_global_filter_enabled` and a `.copy()` of
`_global_allowed_groups` (a fresh set object), and the connection is
appended to `_connections`.  (The `broadcast_stats` call sends a frame but
does not change the registry state.) -/
def connect (st : MgrState) (handle : Nat) : MgrState :=
  let ref := st.store.length
  { st with
    store := st.store ++ [readRef st st.globalAllowedRef],
    conns := st.conns ++ [⟨handle, st.globalFilterEnabled, ref⟩] }

/-- Embeds `ConnectionManager.disconnect` (connection_manager.py lines 110-114):
remove the connection from `_connections` if it is present. -/
def disconnect (st : MgrState) (c : Conn) : MgrState :=
  if c ∈ st.conns then { st with conns := st.conns.erase c } else st

/-- The per-connection loop of `set_global_filter` (connection_manager.py
lines 199-202): each existing connection's `filter.enabled` is set to
`enabled` and its `filter.allowed_groups` is rebound to a fresh `.copy()`
of the new global set (one allocation per connection). -/
def allocFilterCopies (enabled : Bool) (content : Finset String) :
    List Conn → List (Finset String) → List Conn × List (Finset String)
  | [], store => ([], store)
  | c :: cs, store =>
    let r := allocFilterCopies enabled content cs (store ++ [content])
    ({ c with filterEnabled := enabled, allowedRef := store.length } :: r.1, r.2)

/-- Embeds `ConnectionManager.set_global_filter` (connection_manager.py
lines 191-207): `_global_filter_enabled := enabled`,
`_global_allowed_groups := set(allowed_groups)` (a fresh set object), then
every existing connection's filter is overwritten with the new value. -/
def set_global_filter (st : MgrState) (enabled : Bool) (allowed_groups : List String) :
    MgrState :=
  let gref := st.store.length
  let store1 := st.store ++ [allowed_groups.toFinset]
  let r := allocFilterCopies enabled allowed_groups.toFinset st.conns store1
  { conns := r.1,
    globalFilterEnabled := enabled,
    globalAllowedRef := gref,
    store := r.2 }

/-- An in-place mutation of the global allowed-set object (e.g. Python
`manager._global_allowed_groups.add(g)`): the heap cell behind
`globalAllowedRef` is updated, no rebinding happens.  No such call occurs
in the repository; it models what a *direct mutation* of the shared set
object would do, which is what claim C3's aliasing statement is about. -/
def mutateGlobalSet (st : MgrState) (f : Finset String → Finset String) : MgrState :=
  { st with store := st.store.set st.globalAllowedRef (f (readRef st st.globalAllowedRef)) }

/-- The filter value a connection observes: enabled flag plus the current
content of its allowed-set heap cell. -/
def connFilter (st : MgrState) (c : Conn) : ConnectionFilter :=
  ⟨c.filterEnabled, readRef st c.allowedRef⟩

/-- Embeds `conn.filter.should_receive(group_id)` read through the heap
(connection_manager.py line 169 with lines 23-27). -/
def connShouldReceive (st : MgrState) (c : Conn) (group_id : String) : Bool :=
  (connFilter st c).should_receive group_id

/-- Embeds `connection_count` (connection_manager.py lines 75-78): the length of
`_connections`; this is also the `connections` field of the `stats`
broadcast (lines 116-122). -/
def connection_count (st : MgrState) : Nat :=
  st.conns.length

/-- The fan-out loop of `ConnectionManager.broadcast_danmaku`
(connection_manager.py lines 165-173): walk the connection list; for each
connection whose filter accepts the group, attempt the send — `ok` gives
the outcome of `send_json` for each connection handle; count successes and
collect failures in iteration order. -/
def broadcastPass (st : MgrState) (ok : Nat → Bool) (group_id : String) :
    List Conn → Nat × List Conn
  | [] => (0, [])
  | c :: cs =>
    let r := broadcastPass st ok group_id cs
    if connShouldReceive st c group_id then
      if ok c.handle then (r.1 + 1, r.2) else (r.1, c :: r.2)
    else
      r

/-- Embeds `ConnectionManager.broadcast_danmaku` (connection_manager.py
lines 144-180): run the fan-out pass over `_connections`, then disconnect
every failed connection; returns the new state and `sent_count`. -/
def broadcast_danmaku (st : MgrState) (ok : Nat → Bool) (group_id : String) :
    MgrState × Nat :=
  let r := broadcastPass st ok group_id st.conns
  (r.2.foldl disconnect st, r.1)

/-! ### ContentNormalizer (app.py lines 731-742 and 558-564)

Python string primitives `in`, `count`, `split(sep, 1)`, `isdigit` and
`lstrip` are modelled over `List Char`.  Digits and whitespace are modelled
as ASCII (`Char.isDigit` / `Char.isWhitespace`); the repository's inputs to
the numeric check are ASCII-digit prefixes such as `"12"`. -/

/-- Split at the first occurrence of `sep`: `some (before, after)` when
`sep` occurs, `none` otherwise (Python `s.split(sep, 1)` yields
`[before, after]` resp. `[s]`). -/
def splitFirstAux (sep : List Char) : List Char → Option (List Char × List Char)
  | [] => none
  | c :: cs =>
    if sep.isPrefixOf (c :: cs) then
      some ([], (c :: cs).drop sep.length)
    else
      match splitFirstAux sep cs with
      | some (pre, post) => some (c :: pre, post)
      | none => none

/-- Python `sep in s` (substring containment). -/
def pyIn (sep s : List Char) : Bool :=
  (splitFirstAux sep s).isSome

theorem splitFirstAux_append (sep : List Char) :
    ∀ (s pre post : List Char), splitFirstAux sep s = some (pre, post) →
      s = pre ++ sep ++ post := by
  intro s
  induction s with
  | nil => intro pre post h; simp [splitFirstAux] at h
  | cons c cs ih =>
    intro pre post h
    rw [splitFirstAux] at h
    by_cases hp : sep.isPrefixOf (c :: cs)
    · rw [if_pos hp] at h
      obtain ⟨rfl, rfl⟩ := Prod.mk.injEq .. ▸ Option.some.injEq .. ▸ h
      have hpre : sep <+: c :: cs := by
        simpa using List.isPrefixOf_iff_prefix.mp hp
      have := List.prefix_iff_eq_append.mp hpre
      simpa using this.symm
    · rw [if_neg hp] at h
      cases hrec : splitFirstAux sep cs with
      | none => rw [hrec] at h; exact absurd h (by simp)
      | some p =>
        obtain ⟨pre', post'⟩ := p
        rw [hrec] at h
        obtain ⟨rfl, rfl⟩ := Prod.mk.injEq .. ▸ Option.some.injEq .. ▸ h
        simpa using ih pre' post' hrec

/-- Python `s.count(sep)`: number of non-overlapping occurrences of `sep`,
scanning left to right (the source only calls it with the non-empty
separators `": "` and `":"`; the empty-separator guard just keeps the
recursion total). -/
def countSub (sep s : List Char) : Nat :=
  if hsep : sep = [] then 0
  else
    match h : splitFirstAux sep s with
    | none => 0
    | some (_, post) => 1 + countSub sep post
termination_by s.length
decreasing_by
  have := splitFirstAux_append sep s _ post h
  subst this
  have hlen : 0 < sep.length := List.length_pos.mpr hsep
  simp [List.length_append]
  omega

/-- Python `s.isdigit()` (ASCII model): non-empty and all characters are
digits. -/
def pyIsdigit (s : List Char) : Bool :=
  !s.isEmpty && s.all Char.isDigit

/-- Python `s.lstrip()` (ASCII model): drop leading whitespace. -/
def pyLstrip (s : List Char) : List Char :=
  s.dropWhile Char.isWhitespace

def colonSpace : List Char := [':', ' ']

def colonOnly : List Char := [':']

/-- The prefix-stripping of `check_for_new_messages` (app.py lines 733-742):
if `": "` occurs exactly once keep the part after it; else if `":"` occurs
exactly once, split there and keep the `lstrip`-ped remainder unless both
the part before and the part after the colon are purely numeric; otherwise
return the text unchanged. -/
def normalizeContent (content : String) : String :=
  let s := content.toList
  if pyIn colonSpace s && (countSub colonSpace s == 1) then
    match splitFirstAux colonSpace s with
    | some (_, post) => post.asString
    | none => content
  else if pyIn colonOnly s && (countSub colonOnly s == 1) then
    match splitFirstAux colonOnly s with
    | some (pre, post) =>
      if !(pyIsdigit pre) || !(pyIsdigit post) then (pyLstrip post).asString
      else content
    | none => content
  else content

/-- The prefix-stripping of `get_recent_messages` (app.py lines 561-564):
same rules 1 and 2 but with no numeric guard and no `lstrip`. -/
def normalizeRecent (content : String) : String :=
  let s := content.toList
  if pyIn colonSpace s && (countSub colonSpace s == 1) then
    match splitFirstAux colonSpace s with
    | some (_, post) => post.asString
    | none => content
  else if pyIn colonOnly s && (countSub colonOnly s == 1) then
    match splitFirstAux colonOnly s with
    | some (_, post) => post.asString
    | none => content
  else content

/-- Modelled from the claim's words, for the refutation of C5: rule 1 split
at a unique `": "`; rule 2 split at a unique `":"` and keep the remainder
unless the text before the colon is purely numeric, in which case the
original string is returned unchanged; rule 3 unchanged. -/
def normalizeClaimC5 (content : String) : String :=
  let s := content.toList
  if countSub colonSpace s == 1 then
    match splitFirstAux colonSpace s with
    | some (_, post) => post.asString
    | none => content
  else if countSub colonOnly s == 1 then
    match splitFirstAux colonOnly s with
    | some (pre, post) => if pyIsdigit pre then content else post.asString
    | none => content
  else content

/-! ### GroupResolver (app.py lines 209-232)

`get_group_id_from_session_id` is modelled with the module-level
`session_to_group_map` dict passed as an association-list state.  The
database point lookup `select(SessionModel.id2).where(SessionModel.id ==
int(session_id))` is a parameter `db : Int → Except Unit (Option String)`:
`Except.error` models a query (or connection) that raised, `.ok none` an
absent row, `.ok (some g)` the found `id2`.  Python's `int(session_id)`
raising `ValueError` on a non-numeric string is modelled by `pyToInt`
returning `none`; either exception lands in the same handler, which
returns `None`. -/

/-- Python `int(s)` on strings (ASCII model): optional surrounding
whitespace, optional sign, then at least one digit; `none` when `int`
would raise `ValueError`. -/
def pyToInt (s : String) : Option Int :=
  let cs := ((s.toList.dropWhile Char.isWhitespace).reverse.dropWhile Char.isWhitespace).reverse
  let digitsToNat : List Char → Option Nat := fun ds =>
    if ds.isEmpty || !ds.all Char.isDigit then none
    else some (ds.foldl (fun a c => 10 * a + (c.toNat - 48)) 0)
  match cs with
  | '+' :: ds => (digitsToNat ds).map Int.ofNat
  | '-' :: ds => (digitsToNat ds).map (fun n => -(n : Int))
  | ds => (digitsToNat ds).map Int.ofNat

/-- Embeds `get_group_id_from_session_id` (app.py lines 209-232): cache hit returns
the cached value; on a miss, parse the session id, run the point lookup,
and on a truthy result populate the cache and return it; any raised
exception or absent row yields `none` with the cache unchanged. -/
def get_group_id_from_session_id (db : Int → Except Unit (Option String))
    (cache : List (String × String)) (session_id : String) :
    Option String × List (String × String) :=
  match lookupStr cache session_id with
  | some group_id => (some group_id, cache)
  | none =>
    match pyToInt session_id with
    | none => (none, cache)                    -- int(session_id) raised; caught, returns None
    | some n =>
      match db n with
      | .error _ => (none, cache)              -- query raised; caught, returns None
      | .ok none => (none, cache)              -- scalar_one_or_none() found no row
      | .ok (some group_id) =>
        if group_id = "" then (none, cache)    -- `if group_id:` is false for an empty string
        else (some group_id, (session_id, group_id) :: cache)

/-! ### ChangeFeed, pull strategy (app.py lines 650-805)

One iteration of the `while True` loop of `check_for_new_messages` is the
pure function `checkCycle`.  `datetime` values are `Int` milliseconds
(`timedelta(milliseconds=1)` is `1`).  The database is a snapshot list of
joined message/session rows; the store is maintained in ascending `time`
order (rows are appended with increasing timestamps), so `ORDER BY time`
is enumeration order and the `time > last_check_time` query is a filter. -/

def msPerMinute : Int := 60000

def msPerHour : Int := 3600000

/-- One row of `MessageRecord` joined with its `SessionModel`. -/
structure MsgRow where
  time : Int
  id1 : String
  id2 : String
  plain_text : String
  message_id : String
deriving DecidableEq

/-- The outbound `danmaku` frame built per row (app.py lines 767-774). -/
structure DanmakuEvent where
  group_id : String
  user_id : String
  time : Int
  content : String
  message_id : String
deriving DecidableEq

/-- Embeds `select(func.max(MessageRecord.time))` (app.py lines 691-693). -/
def dbMaxTime (store : List MsgRow) : Option Int :=
  match store with
  | [] => none
  | r :: rs =>
    some (match dbMaxTime rs with
          | none => r.time
          | some t => max r.time t)

/-- The pre-query clock-skew guard (app.py lines 695-706): when the store's
max timestamp is in the future of `utcNow` by more than 48 hours, the
query lower bound is reset to `utcNow` minus 5 minutes; otherwise
`last_check_time` is used unchanged. -/
def adjustLastCheck (dbLatest : Option Int) (utcNow lastCheck : Int) : Int :=
  match dbLatest with
  | none => lastCheck
  | some t =>
    if t > utcNow then
      if t - utcNow > 48 * msPerHour then utcNow - 5 * msPerMinute else lastCheck
    else lastCheck

/-- The new-message query (app.py lines 709-716): rows with
`time > last_check_time`, in ascending time order. -/
def queryNewMessages (store : List MsgRow) (lastCheck : Int) : List MsgRow :=
  store.filter (fun r => lastCheck < r.time)

/-- The `danmaku` event built from one row (app.py lines 722-774):
`group_id = str(session.id2)`, `user_id = session.id1`, the content is the
normalized `plain_text`. -/
def eventOfRow (m : MsgRow) : DanmakuEvent :=
  { group_id := m.id2,
    user_id := m.id1,
    time := m.time,
    content := normalizeContent m.plain_text,
    message_id := m.message_id }

def feedEmit (rows : List MsgRow) : List DanmakuEvent :=
  rows.map eventOfRow

/-- One iteration of the polling loop of `check_for_new_messages`
(app.py lines 680-800): read the store's max time, apply the clock-skew
guard, query rows past the watermark and emit them in order; if anything
was emitted advance the watermark to the store max plus 1 ms (or, when the
store max is itself in the future, to the last emitted row's time plus
1 ms); if nothing was emitted, reset a watermark that sits more than
5 minutes in the future back to `utcNow` minus one hour, else leave it.
Returns (new watermark, emitted events). -/
def checkCycle (store : List MsgRow) (utcNow lastCheck : Int) : Int × List DanmakuEvent :=
  let dbLatest := dbMaxTime store
  let lastCheck1 := adjustLastCheck dbLatest utcNow lastCheck
  let newMessages := queryNewMessages store lastCheck1
  if newMessages.isEmpty then
    let wm := if lastCheck1 > utcNow + 5 * msPerMinute then utcNow - msPerHour else lastCheck1
    (wm, [])
  else
    let wmFromLast :=
      match newMessages.getLast? with
      | some m => m.time + 1
      | none => lastCheck1
    let wm :=
      match dbLatest with
      | some t => if t ≤ utcNow then t + 1 else wmFromLast
      | none => wmFromLast
    (wm, feedEmit newMessages)

/-- Several consecutive polling iterations: before each cycle the batch of
rows inserted since the previous cycle is appended to the store, then
`checkCycle` runs; emissions are concatenated in cycle order.  `utcNow` is
the feed's clock reading during the run. -/
def runCycles (utcNow : Int) : List MsgRow → Int → List (List MsgRow) → Int × List DanmakuEvent
  | _, wm, [] => (wm, [])
  | store, wm, batch :: rest =>
    let store1 := store ++ batch
    let r1 := checkCycle store1 utcNow wm
    let r2 := runCycles utcNow store1 r1.1 rest
    (r2.1, r1.2 ++ r2.2)

/-- The initial watermark computation (app.py lines 652-677): the store's
max timestamp, or `now - 1h` when the store is empty or the query raised,
or `now - 24h` when the store's max timestamp is in the future. -/
def initialCheckTime (dbLatest : Except Unit (Option Int)) (utcNow : Int) : Int :=
  match dbLatest with
  | .error _ => utcNow - msPerHour
  | .ok none => utcNow - msPerHour
  | .ok (some t) => if t > utcNow then utcNow - 24 * msPerHour else t

end Danmaku

namespace Danmaku

/-! ## Helper lemmas -/

theorem lookupStr_not_mem_keys {cache : List (String × String)} {key : String}
    (h : key ∉ cache.map Prod.fst) : lookupStr cache key = none := by
  induction cache with
  | nil => rfl
  | cons p rest ih =>
    obtain ⟨k, v⟩ := p
    simp only [List.map_cons, List.mem_cons, not_or] at h
    rw [lookupStr, if_neg (fun hk : k = key => h.1 hk.symm)]
    exact ih h.2

/-! ## C1 -/

/-- C1: for every filter state and every group id `g`,
`should_receive g` is true iff the filter is not enabled or `g` is in
`allowed_groups`; an enabled filter with an empty allowed-set receives
nothing, a disabled filter receives everything; the inlined filter logic of
`check_for_new_messages` decides exactly the same predicate. -/
theorem C1_should_receive_iff (f : ConnectionFilter) (g : String) :
    (f.should_receive g = true ↔ (f.enabled = false ∨ g ∈ f.allowed_groups))
    ∧ (f.enabled = true → f.allowed_groups = ∅ → f.should_receive g = false)
    ∧ (f.enabled = false → f.should_receive g = true)
    ∧ (∀ enabled : Bool, ∀ allowed : List String,
        appShouldSend enabled allowed g =
          ConnectionFilter.should_receive ⟨enabled, allowed.toFinset⟩ g) := by
  obtain ⟨e, s⟩ := f
  refine ⟨?_, ?_, ?_, ?_⟩
  · cases e <;> simp [ConnectionFilter.should_receive]
  · rintro rfl rfl; simp [ConnectionFilter.should_receive]
  · rintro rfl; simp [ConnectionFilter.should_receive]
  · intro enabled allowed
    cases enabled <;> cases allowed <;>
      simp [appShouldSend, ConnectionFilter.should_receive, List.mem_toFinset]

/-- Witness for C1 at the spec's "filter algebra" inputs. -/
theorem C1_witness :
    ConnectionFilter.should_receive ⟨false, ∅⟩ "42" = true
    ∧ ConnectionFilter.should_receive ⟨true, ∅⟩ "42" = false
    ∧ ConnectionFilter.should_receive ⟨true, {"42"}⟩ "42" = true
    ∧ ConnectionFilter.should_receive ⟨true, {"42"}⟩ "43" = false := by
  refine ⟨?_, (C1_should_receive_iff ⟨true, ∅⟩ "42").2.1 rfl rfl, ?_, ?_⟩
  · exact (C1_should_receive_iff ⟨false, ∅⟩ "42").2.2.1 rfl
  · exact (C1_should_receive_iff ⟨true, {"42"}⟩ "42").1.mpr (Or.inr (by decide))
  · by_contra hne
    have := (C1_should_receive_iff ⟨true, {"42"}⟩ "43").1.mp
      (by revert hne; cases ConnectionFilter.should_receive ⟨true, {"42"}⟩ "43" <;> simp)
    simpa using this

/-! ## C10 -/

/-- C10: caching a session-to-group mapping and reading it back returns
`str(group_id)`; the lookup key is `str(session_id)` (so any value with the
same string image finds it); a session id whose string image was never
cached yields `none` rather than an error. -/
theorem C10_cache_round_trip :
    (∀ (cache : List (String × String)) (s g : PyVal),
        get_cached_group_id (cache_session_mapping cache s g) s = some (pyStr g))
    ∧ (∀ (cache : List (String × String)) (s s' g : PyVal), pyStr s' = pyStr s →
        get_cached_group_id (cache_session_mapping cache s g) s' = some (pyStr g))
    ∧ (∀ (cache : List (String × String)) (s : PyVal),
        pyStr s ∉ cache.map Prod.fst → get_cached_group_id cache s = none) := by
  refine ⟨?_, ?_, ?_⟩
  · intro cache s g
    simp [get_cached_group_id, cache_session_mapping, lookupStr]
  · intro cache s s' g hs
    simp [get_cached_group_id, cache_session_mapping, lookupStr, hs]
  · intro cache s h
    exact lookupStr_not_mem_keys h

/-- Witness for C10: an integer session id 42 and group id 1000 round-trip
through the string coercion; an empty cache misses. -/
theorem C10_witness :
    get_cached_group_id (cache_session_mapping [] (.int 42) (.int 1000)) (.int 42) = some "1000"
    ∧ get_cached_group_id (cache_session_mapping [] (.int 42) (.int 1000)) (.str "42")
        = some "1000"
    ∧ get_cached_group_id [] (.str "missing") = none := by
  refine ⟨C10_cache_round_trip.1 [] (.int 42) (.int 1000), ?_, ?_⟩
  · exact C10_cache_round_trip.2.1 [] (.int 42) (.str "42") (.int 1000) (by decide)
  · exact C10_cache_round_trip.2.2 [] (.str "missing") (by decide)

/-! ## C9 -/

/-- C9: `disconnect` removes a present subscriber (the connection count
drops by one and it is gone), is a no-op on an absent one, and repeating it
on the same subscriber is a no-op — all for any registry whose connection
list has no duplicate entries (each `connect` appends a fresh
`ManagedConnection` object, so the live list never holds duplicates). -/
theorem C9_disconnect_idempotent (st : MgrState) (c : Conn)
    (hnodup : st.conns.Nodup) :
    (c ∈ st.conns →
        (disconnect st c).conns = st.conns.erase c
        ∧ connection_count (disconnect st c) = connection_count st - 1
        ∧ c ∉ (disconnect st c).conns)
    ∧ (c ∉ st.conns → disconnect st c = st)
    ∧ disconnect (disconnect st c) c = disconnect st c := by
  refine ⟨?_, ?_, ?_⟩
  · intro hc
    rw [disconnect, if_pos hc]
    refine ⟨rfl, ?_, ?_⟩
    · simp [connection_count, List.length_erase_of_mem hc]
    · intro habs
      exact ((List.Nodup.mem_erase_iff hnodup).mp habs).1 rfl
  · intro hc
    rw [disconnect, if_neg hc]
  · by_cases hc : c ∈ st.conns
    · have h1 : disconnect st c = { st with conns := st.conns.erase c } := by
        rw [disconnect, if_pos hc]
      have hout : c ∉ st.conns.erase c := fun habs =>
        ((List.Nodup.mem_erase_iff hnodup).mp habs).1 rfl
      rw [h1]
      simp [disconnect, hout]
    · have h1 : disconnect st c = st := by rw [disconnect, if_neg hc]
      rw [h1, disconnect, if_neg hc]

/-! ## C2 and C3: heap lemmas about `set_global_filter` and `connect` -/

theorem getD_set_self (l : List (Finset String)) (i : Nat) (a : Finset String)
    (hi : i < l.length) : (l.set i a).getD i ∅ = a := by
  rw [List.getD_eq_getElem _ _ (by simpa using hi)]
  simp

theorem getD_set_ne (l : List (Finset String)) (i j : Nat) (a : Finset String)
    (hne : i ≠ j) : (l.set i a).getD j ∅ = l.getD j ∅ := by
  simp [List.getD_eq_getD_get?, List.getElem?_set_ne hne]

theorem allocFilterCopies_store_ext (enabled : Bool) (content : Finset String) :
    ∀ (cs : List Conn) (store : List (Finset String)),
      ∃ ext, (allocFilterCopies enabled content cs store).2 = store ++ ext := by
  intro cs
  induction cs with
  | nil => intro store; exact ⟨[], by simp [allocFilterCopies]⟩
  | cons c rest ih =>
    intro store
    obtain ⟨ext, hext⟩ := ih (store ++ [content])
    exact ⟨content :: ext, by simp [allocFilterCopies, hext]⟩

theorem allocFilterCopies_handles (enabled : Bool) (content : Finset String) :
    ∀ (cs : List Conn) (store : List (Finset String)),
      (allocFilterCopies enabled content cs store).1.map Conn.handle
        = cs.map Conn.handle := by
  intro cs
  induction cs with
  | nil => intro store; simp [allocFilterCopies]
  | cons c rest ih => intro store; simp [allocFilterCopies, ih]

theorem allocFilterCopies_views (enabled : Bool) (content : Finset String) :
    ∀ (cs : List Conn) (store : List (Finset String)),
      ∀ c' ∈ (allocFilterCopies enabled content cs store).1,
        c'.filterEnabled = enabled
        ∧ store.length ≤ c'.allowedRef
        ∧ (allocFilterCopies enabled content cs store).2.getD c'.allowedRef ∅ = content := by
  intro cs
  induction cs with
  | nil => intro store c' hc'; simp [allocFilterCopies] at hc'
  | cons c rest ih =>
    intro store c' hc'
    have hsplit :
        (allocFilterCopies enabled content (c :: rest) store).1
          = { c with filterEnabled := enabled, allowedRef := store.length }
              :: (allocFilterCopies enabled content rest (store ++ [content])).1 := rfl
    have hstore :
        (allocFilterCopies enabled content (c :: rest) store).2
          = (allocFilterCopies enabled content rest (store ++ [content])).2 := rfl
    rw [hsplit] at hc'
    rcases List.mem_cons.mp hc' with rfl | hc'
    · refine ⟨rfl, le_refl _, ?_⟩
      obtain ⟨ext, hext⟩ :=
        allocFilterCopies_store_ext enabled content rest (store ++ [content])
      rw [hstore, hext, List.getD_append _ _ _ _ (by simp),
        List.getD_append_right _ _ _ _ (le_refl _)]
      simp
    · have := ih (store ++ [content]) c' hc'
      rw [hstore]
      exact ⟨this.1, le_trans (by simp) this.2.1, this.2.2⟩

theorem set_global_filter_spec (st : MgrState) (enabled : Bool)
    (groups : List String) :
    (set_global_filter st enabled groups).globalFilterEnabled = enabled
    ∧ readRef (set_global_filter st enabled groups)
        (set_global_filter st enabled groups).globalAllowedRef = groups.toFinset
    ∧ (set_global_filter st enabled groups).conns.map Conn.handle
        = st.conns.map Conn.handle
    ∧ ∀ c ∈ (set_global_filter st enabled groups).conns,
        connFilter (set_global_filter st enabled groups) c
          = ⟨enabled, groups.toFinset⟩ := by
  obtain ⟨ext, hext⟩ :=
    allocFilterCopies_store_ext enabled groups.toFinset st.conns
      (st.store ++ [groups.toFinset])
  refine ⟨rfl, ?_, ?_, ?_⟩
  · show (allocFilterCopies enabled groups.toFinset st.conns
        (st.store ++ [groups.toFinset])).2.getD st.store.length ∅ = groups.toFinset
    rw [hext, List.getD_append _ _ _ _ (by simp),
      List.getD_append_right _ _ _ _ (le_refl _)]
    simp
  · exact allocFilterCopies_handles enabled groups.toFinset st.conns _
  · intro c hc
    have hv := allocFilterCopies_views enabled groups.toFinset st.conns
      (st.store ++ [groups.toFinset]) c hc
    show (⟨c.filterEnabled, _⟩ : ConnectionFilter) = _
    rw [ConnectionFilter.mk.injEq]
    exact ⟨hv.1, hv.2.2⟩

/-- C2: `set_global_filter enabled groups` replaces the global filter with
`(enabled, set groups)` and synchronously overwrites every
currently-registered connection's filter with that same value; the set of
registered connections (their handles, in order) is unchanged, so no
reconnect takes place. -/
theorem C2_set_global_filter_live_push (st : MgrState) (enabled : Bool)
    (groups : List String) :
    (set_global_filter st enabled groups).globalFilterEnabled = enabled
    ∧ readRef (set_global_filter st enabled groups)
        (set_global_filter st enabled groups).globalAllowedRef = groups.toFinset
    ∧ (set_global_filter st enabled groups).conns.map Conn.handle
        = st.conns.map Conn.handle
    ∧ ∀ c ∈ (set_global_filter st enabled groups).conns,
        connFilter (set_global_filter st enabled groups) c
          = ⟨enabled, groups.toFinset⟩ :=
  set_global_filter_spec st enabled groups

/-- The global allowed-set reference stays strictly below the store length
after `set_global_filter` (it is allocated before the per-connection
copies). -/
theorem set_global_filter_globalRef_lt (st : MgrState) (enabled : Bool)
    (groups : List String) :
    (set_global_filter st enabled groups).globalAllowedRef
      < (set_global_filter st enabled groups).store.length := by
  obtain ⟨ext, hext⟩ :=
    allocFilterCopies_store_ext enabled groups.toFinset st.conns
      (st.store ++ [groups.toFinset])
  show st.store.length < (allocFilterCopies enabled groups.toFinset st.conns
      (st.store ++ [groups.toFinset])).2.length
  rw [hext]
  simp

/-- C3: a subscriber that connects after `set_global_filter enabled groups`
snapshots the global filter by value: it observes `(enabled, set groups)`,
and an in-place mutation of the global allowed-set object afterwards
changes the global set but not the subscriber's filter. -/
theorem C3_connect_snapshot_copy (st : MgrState) (e : Bool) (gs : List String)
    (h : Nat) (f : Finset String → Finset String) :
    (connect (set_global_filter st e gs) h).conns.getLast?
      = some ⟨h, e, (set_global_filter st e gs).store.length⟩
    ∧ connFilter (connect (set_global_filter st e gs) h)
        ⟨h, e, (set_global_filter st e gs).store.length⟩ = ⟨e, gs.toFinset⟩
    ∧ connFilter (mutateGlobalSet (connect (set_global_filter st e gs) h) f)
        ⟨h, e, (set_global_filter st e gs).store.length⟩ = ⟨e, gs.toFinset⟩
    ∧ readRef (mutateGlobalSet (connect (set_global_filter st e gs) h) f)
        (mutateGlobalSet (connect (set_global_filter st e gs) h) f).globalAllowedRef
      = f (gs.toFinset) := by
  have hC2 := set_global_filter_spec st e gs
  have hlt := set_global_filter_globalRef_lt st e gs
  set st1 := set_global_filter st e gs with hst1
  have hread2 :
      readRef (connect st1 h) st1.store.length = gs.toFinset := by
    show (st1.store ++ [readRef st1 st1.globalAllowedRef]).getD st1.store.length ∅
      = gs.toFinset
    rw [List.getD_append_right _ _ _ _ (le_refl _)]
    simpa using hC2.2.1
  have hreadG2 : readRef (connect st1 h) st1.globalAllowedRef = gs.toFinset := by
    show (st1.store ++ [readRef st1 st1.globalAllowedRef]).getD st1.globalAllowedRef ∅
      = gs.toFinset
    rw [List.getD_append _ _ _ _ hlt]
    exact hC2.2.1
  refine ⟨?_, ?_, ?_, ?_⟩
  · show (st1.conns
        ++ [(⟨h, st1.globalFilterEnabled, st1.store.length⟩ : Conn)]).getLast?
      = some (⟨h, e, st1.store.length⟩ : Conn)
    rw [List.getLast?_concat]
    have he : st1.globalFilterEnabled = e := hC2.1
    rw [he]
  · show ConnectionFilter.mk e (readRef (connect st1 h) st1.store.length)
      = ConnectionFilter.mk e gs.toFinset
    rw [hread2]
  · have hne : (connect st1 h).globalAllowedRef ≠ st1.store.length :=
      Nat.ne_of_lt hlt
    show ConnectionFilter.mk e
        (((connect st1 h).store.set (connect st1 h).globalAllowedRef
          (f (readRef (connect st1 h) (connect st1 h).globalAllowedRef))).getD
            st1.store.length ∅)
      = ConnectionFilter.mk e gs.toFinset
    rw [getD_set_ne _ _ _ _ hne]
    exact congrArg (ConnectionFilter.mk e) hread2
  · show ((connect st1 h).store.set (connect st1 h).globalAllowedRef
      (f (readRef (connect st1 h) (connect st1 h).globalAllowedRef))).getD
        (connect st1 h).globalAllowedRef ∅ = f (gs.toFinset)
    have hlt2 : (connect st1 h).globalAllowedRef < (connect st1 h).store.length := by
      show st1.globalAllowedRef < (st1.store ++ [_]).length
      simp only [List.length_append, List.length_singleton]
      omega
    rw [getD_set_self _ _ _ hlt2]
    exact congrArg f hreadG2

/-- Witness for C2: the spec's "live retune" scenario — two connected,
filter-disabled subscribers both adopt `(true, {"42"})` immediately after
`set_global_filter true ["42"]`, without reconnecting. -/
theorem C2_witness :
    connFilter (set_global_filter ⟨[⟨0, false, 0⟩, ⟨1, false, 1⟩], false, 2, [∅, ∅, ∅]⟩
        true ["42"]) ⟨0, true, 4⟩ = ⟨true, (["42"] : List String).toFinset⟩
    ∧ connFilter (set_global_filter ⟨[⟨0, false, 0⟩, ⟨1, false, 1⟩], false, 2, [∅, ∅, ∅]⟩
        true ["42"]) ⟨1, true, 5⟩ = ⟨true, (["42"] : List String).toFinset⟩ :=
  ⟨(C2_set_global_filter_live_push ⟨[⟨0, false, 0⟩, ⟨1, false, 1⟩], false, 2, [∅, ∅, ∅]⟩
      true ["42"]).2.2.2 ⟨0, true, 4⟩ (by decide),
   (C2_set_global_filter_live_push ⟨[⟨0, false, 0⟩, ⟨1, false, 1⟩], false, 2, [∅, ∅, ∅]⟩
      true ["42"]).2.2.2 ⟨1, true, 5⟩ (by decide)⟩

/-! ## C4: failed deliveries remove the subscriber -/

theorem broadcastPass_failed (st : MgrState) (ok : Nat → Bool) (gid : String) :
    ∀ l : List Conn, (broadcastPass st ok gid l).2
      = l.filter (fun c => connShouldReceive st c gid && !(ok c.handle)) := by
  intro l
  induction l with
  | nil => simp [broadcastPass]
  | cons c cs ih =>
    by_cases h1 : connShouldReceive st c gid
    · by_cases h2 : ok c.handle
      · simp [broadcastPass, h1, h2, ih, List.filter_cons]
      · simp [broadcastPass, h1, h2, ih, List.filter_cons]
    · simp [broadcastPass, h1, ih, List.filter_cons]

theorem broadcastPass_sent (st : MgrState) (ok : Nat → Bool) (gid : String) :
    ∀ l : List Conn, (broadcastPass st ok gid l).1
      = (l.filter (fun c => connShouldReceive st c gid && ok c.handle)).length := by
  intro l
  induction l with
  | nil => simp [broadcastPass]
  | cons c cs ih =>
    by_cases h1 : connShouldReceive st c gid
    · by_cases h2 : ok c.handle
      · simp [broadcastPass, h1, h2, ih, List.filter_cons]
      · simp [broadcastPass, h1, h2, ih, List.filter_cons]
    · simp [broadcastPass, h1, ih, List.filter_cons]

theorem foldl_disconnect_conns :
    ∀ (l : List Conn) (st : MgrState),
      (l.foldl disconnect st).conns = l.foldl List.erase st.conns := by
  intro l
  induction l with
  | nil => intro st; rfl
  | cons c cs ih =>
    intro st
    rw [List.foldl_cons, List.foldl_cons, ih]
    congr 1
    by_cases hc : c ∈ st.conns
    · rw [disconnect, if_pos hc]
    · rw [disconnect, if_neg hc, List.erase_of_not_mem hc]

theorem length_filter_add_length_filter_not (p : Conn → Bool) (l : List Conn) :
    (l.filter p).length + (l.filter (fun c => !(p c))).length = l.length := by
  induction l with
  | nil => rfl
  | cons c cs ih =>
    by_cases h : p c <;> simp [List.filter_cons, h] <;> omega

/-- C4: during `broadcast_danmaku`, every subscriber whose delivery was
attempted and failed is removed from the registry (so the connection count
drops by the number of failures), while subscribers whose delivery
succeeded — and those the filter skipped — remain registered; the returned
`sent_count` is the number of successful deliveries.  The registry list
holds no duplicate connections (each `connect` appends a fresh object). -/
theorem C4_broadcast_failure_removes (st : MgrState) (ok : Nat → Bool) (gid : String)
    (hnodup : st.conns.Nodup) :
    ((broadcast_danmaku st ok gid).1).conns
      = st.conns.filter (fun c => !(connShouldReceive st c gid && !(ok c.handle)))
    ∧ connection_count (broadcast_danmaku st ok gid).1
      = connection_count st
        - (st.conns.filter (fun c => connShouldReceive st c gid && !(ok c.handle))).length
    ∧ (∀ c ∈ st.conns, connShouldReceive st c gid = true → ok c.handle = false →
        c ∉ ((broadcast_danmaku st ok gid).1).conns)
    ∧ (∀ c ∈ st.conns, connShouldReceive st c gid = true → ok c.handle = true →
        c ∈ ((broadcast_danmaku st ok gid).1).conns)
    ∧ (broadcast_danmaku st ok gid).2
      = (st.conns.filter (fun c => connShouldReceive st c gid && ok c.handle)).length := by
  have hfailed := broadcastPass_failed st ok gid st.conns
  have hconns : ((broadcast_danmaku st ok gid).1).conns
      = st.conns.filter (fun c => !(connShouldReceive st c gid && !(ok c.handle))) := by
    show ((broadcastPass st ok gid st.conns).2.foldl disconnect st).conns = _
    rw [foldl_disconnect_conns, ← List.diff_eq_foldl,
      List.Nodup.diff_eq_filter hnodup, hfailed]
    apply List.filter_congr
    intro c hc
    by_cases hp : connShouldReceive st c gid && !(ok c.handle)
    · simp [List.mem_filter, hc, hp]
    · simp [List.mem_filter, hp]
  refine ⟨hconns, ?_, ?_, ?_, broadcastPass_sent st ok gid st.conns⟩
  · show ((broadcast_danmaku st ok gid).1).conns.length = st.conns.length - _
    rw [hconns]
    have := length_filter_add_length_filter_not
      (fun c => connShouldReceive st c gid && !(ok c.handle)) st.conns
    omega
  · intro c hc hrecv hfail habs
    rw [hconns, List.mem_filter] at habs
    rw [hrecv, hfail] at habs
    simpa using habs.2
  · intro c hc hrecv hok
    rw [hconns, List.mem_filter]
    exact ⟨hc, by rw [hrecv, hok]; rfl⟩

/-- Witness for C4: two disabled-filter subscribers; delivery to handle 1
fails, so it is dropped, the count falls from 2 to 1, and one send
succeeded. -/
theorem C4_witness :
    ((broadcast_danmaku ⟨[⟨0, false, 0⟩, ⟨1, false, 1⟩], false, 2, [∅, ∅, ∅]⟩
        (fun h => h == 0) "42").1).conns = [⟨0, false, 0⟩]
    ∧ connection_count (broadcast_danmaku ⟨[⟨0, false, 0⟩, ⟨1, false, 1⟩], false, 2, [∅, ∅, ∅]⟩
        (fun h => h == 0) "42").1 = 1
    ∧ (broadcast_danmaku ⟨[⟨0, false, 0⟩, ⟨1, false, 1⟩], false, 2, [∅, ∅, ∅]⟩
        (fun h => h == 0) "42").2 = 1 := by
  have hmain := C4_broadcast_failure_removes
    ⟨[⟨0, false, 0⟩, ⟨1, false, 1⟩], false, 2, [∅, ∅, ∅]⟩ (fun h => h == 0) "42" (by decide)
  exact ⟨hmain.1.trans (by decide), (hmain.2.1).trans (by decide),
    (hmain.2.2.2.2).trans (by decide)⟩

/-! ## C8: GroupResolver -/

/-- C8: resolving a session id checks the cache first (a hit returns the
cached value, leaves the cache unchanged, and is independent of the store);
on a miss, a raised parse (`int(...)` of a non-numeric id), a raised
lookup, or an absent row all return `none` with no exception and no cache
change; a successful lookup populates the cache and returns the group id. -/
theorem C8_resolver_contract (db db' : Int → Except Unit (Option String))
    (cache : List (String × String)) (sid : String) :
    (∀ g, lookupStr cache sid = some g →
        get_group_id_from_session_id db cache sid = (some g, cache)
        ∧ get_group_id_from_session_id db cache sid
            = get_group_id_from_session_id db' cache sid)
    ∧ (lookupStr cache sid = none → pyToInt sid = none →
        get_group_id_from_session_id db cache sid = (none, cache))
    ∧ (∀ n, lookupStr cache sid = none → pyToInt sid = some n → db n = .error () →
        get_group_id_from_session_id db cache sid = (none, cache))
    ∧ (∀ n, lookupStr cache sid = none → pyToInt sid = some n → db n = .ok none →
        get_group_id_from_session_id db cache sid = (none, cache))
    ∧ (∀ n g, lookupStr cache sid = none → pyToInt sid = some n →
        db n = .ok (some g) → g ≠ "" →
        get_group_id_from_session_id db cache sid = (some g, (sid, g) :: cache)) := by
  refine ⟨?_, ?_, ?_, ?_, ?_⟩
  · intro g hg
    constructor <;> simp [get_group_id_from_session_id, hg]
  · intro hmiss hparse
    simp [get_group_id_from_session_id, hmiss, hparse]
  · intro n hmiss hparse hdb
    simp [get_group_id_from_session_id, hmiss, hparse, hdb]
  · intro n hmiss hparse hdb
    simp [get_group_id_from_session_id, hmiss, hparse, hdb]
  · intro n g hmiss hparse hdb hne
    simp [get_group_id_from_session_id, hmiss, hparse, hdb, hne]

/-- Witness for C8: a non-numeric session id resolves to `none` without
raising; a numeric one that the store knows populates the cache; a cached
one is served from the cache. -/
theorem C8_witness :
    get_group_id_from_session_id (fun n => if n = 5 then .ok (some "G") else .ok none)
      [] "abc" = (none, [])
    ∧ get_group_id_from_session_id (fun n => if n = 5 then .ok (some "G") else .ok none)
      [] "5" = (some "G", [("5", "G")])
    ∧ get_group_id_from_session_id (fun n => if n = 5 then .ok (some "G") else .ok none)
      [("7", "42")] "7" = (some "42", [("7", "42")]) := by
  refine ⟨?_, ?_, ?_⟩
  · exact (C8_resolver_contract (fun n => if n = 5 then .ok (some "G") else .ok none)
      (fun n => if n = 5 then .ok (some "G") else .ok none) [] "abc").2.1
      (by decide) (by decide)
  · exact (C8_resolver_contract (fun n => if n = 5 then .ok (some "G") else .ok none)
      (fun n => if n = 5 then .ok (some "G") else .ok none) [] "5").2.2.2.2 5 "G"
      (by decide) (by decide) (by rfl) (by decide)
  · exact ((C8_resolver_contract (fun n => if n = 5 then .ok (some "G") else .ok none)
      (fun n => if n = 5 then .ok (some "G") else .ok none) [("7", "42")] "7").1 "42"
      (by decide)).1

/-! ## C5: ContentNormalizer -/

theorem countSub_eq (sep s : List Char) (hsep : sep ≠ []) :
    countSub sep s
      = match splitFirstAux sep s with
        | none => 0
        | some (_, post) => 1 + countSub sep post := by
  rw [countSub, dif_neg hsep]
  cases hsplit : splitFirstAux sep s <;> rfl

theorem countSub_one_isSome {sep s : List Char} (hsep : sep ≠ [])
    (h : countSub sep s = 1) : (splitFirstAux sep s).isSome = true := by
  rw [countSub_eq sep s hsep] at h
  cases hsplit : splitFirstAux sep s with
  | none => rw [hsplit] at h; simp at h
  | some p => rfl

/-- C5 counterexample: on `"12:ab"` (one colon, purely numeric prefix,
non-numeric suffix) the claimed rules return the string unchanged, but the
code keeps the remainder `"ab"`. -/
theorem C5_counterexample :
    normalizeContent "12:ab" = "ab"
    ∧ normalizeClaimC5 "12:ab" = "12:ab"
    ∧ normalizeContent "12:ab" ≠ normalizeClaimC5 "12:ab" := by
  have h1 : normalizeContent "12:ab" = "ab" := by
    simp [normalizeContent, countSub, splitFirstAux, colonOnly, colonSpace, pyIn,
      List.isPrefixOf, String.toList, pyIsdigit, pyLstrip]
    rfl
  have h2 : normalizeClaimC5 "12:ab" = "12:ab" := by
    simp [normalizeClaimC5, countSub, splitFirstAux, colonOnly, colonSpace,
      List.isPrefixOf, String.toList, pyIsdigit]
  exact ⟨h1, h2, by rw [h1, h2]; decide⟩

/-- C5 amended: the normalizer used by the live feed splits at a unique
`": "`; else at a unique `":"` it keeps the left-stripped remainder unless
*both* the prefix and the suffix are purely numeric (only then is the
string returned unchanged); otherwise the string is unchanged.  The
recent-messages endpoint's copy of the rule keeps the raw remainder with
no numeric guard at all.  The claim's three examples hold. -/
theorem C5_amended_normalizer (s : String) :
    (countSub colonSpace s.toList = 1 →
      ∀ pre post, splitFirstAux colonSpace s.toList = some (pre, post) →
        normalizeContent s = post.asString)
    ∧ (countSub colonSpace s.toList ≠ 1 → countSub colonOnly s.toList = 1 →
      ∀ pre post, splitFirstAux colonOnly s.toList = some (pre, post) →
        ((pyIsdigit pre = true ∧ pyIsdigit post = true → normalizeContent s = s)
          ∧ (¬(pyIsdigit pre = true ∧ pyIsdigit post = true) →
              normalizeContent s = (pyLstrip post).asString)
          ∧ normalizeRecent s = post.asString))
    ∧ (countSub colonSpace s.toList ≠ 1 → countSub colonOnly s.toList ≠ 1 →
        normalizeContent s = s ∧ normalizeRecent s = s)
    ∧ normalizeContent "Alice: hello there" = "hello there"
    ∧ normalizeContent "12:30:00" = "12:30:00"
    ∧ normalizeContent "Bob:test" = "test" := by
  refine ⟨?_, ?_, ?_, ?_, ?_, ?_⟩
  · intro h1 pre post hsplit
    have hin : pyIn colonSpace s.toList = true := by
      rw [pyIn, hsplit]; rfl
    simp only [normalizeContent, hin, h1, hsplit]
    rfl
  · intro h1 h2 pre post hsplit
    have hin : pyIn colonOnly s.toList = true := by
      rw [pyIn, hsplit]; rfl
    have hne1 : (countSub colonSpace s.toList == 1) = false :=
      beq_eq_false_iff_ne.mpr h1
    have hcond1 : (pyIn colonSpace s.toList && (countSub colonSpace s.toList == 1))
        = false := by
      rw [hne1, Bool.and_false]
    refine ⟨?_, ?_, ?_⟩
    · rintro ⟨hd1, hd2⟩
      simp only [normalizeContent, hcond1, hin, h2, hsplit, hd1, hd2]
      rfl
    · intro hnot
      have hd : (!(pyIsdigit pre) || !(pyIsdigit post)) = true := by
        by_cases hp : pyIsdigit pre = true
        · by_cases hq : pyIsdigit post = true
          · exact absurd ⟨hp, hq⟩ hnot
          · simp only [Bool.not_eq_true] at hq
            simp [hq]
        · simp only [Bool.not_eq_true] at hp
          simp [hp]
      simp only [normalizeContent, hcond1, hin, h2, hsplit, hd]
      simp
    · simp only [normalizeRecent, hcond1, hin, h2, hsplit]
      simp
  · intro h1 h2
    have hne1 : (countSub colonSpace s.toList == 1) = false :=
      beq_eq_false_iff_ne.mpr h1
    have hne2 : (countSub colonOnly s.toList == 1) = false :=
      beq_eq_false_iff_ne.mpr h2
    have hcond1 : (pyIn colonSpace s.toList && (countSub colonSpace s.toList == 1))
        = false := by rw [hne1, Bool.and_false]
    have hcond2 : (pyIn colonOnly s.toList && (countSub colonOnly s.toList == 1))
        = false := by rw [hne2, Bool.and_false]
    constructor
    · simp only [normalizeContent, hcond1, hcond2]
      rfl
    · simp only [normalizeRecent, hcond1, hcond2]
      rfl
  · simp [normalizeContent, countSub, splitFirstAux, colonOnly, colonSpace, pyIn,
      List.isPrefixOf, String.toList]
    rfl
  · simp [normalizeContent, countSub, splitFirstAux, colonOnly, colonSpace, pyIn,
      List.isPrefixOf, String.toList]
  · simp [normalizeContent, countSub, splitFirstAux, colonOnly, colonSpace, pyIn,
      List.isPrefixOf, String.toList, pyIsdigit, pyLstrip]
    rfl

/-- Witness for C5's amended theorem at `"Bob:test"`: one colon, prefix not
numeric, so the code keeps (and left-strips) the remainder. -/
theorem C5_amended_witness : normalizeContent "Bob:test" = "test" := by
  have h := (C5_amended_normalizer "Bob:test").2.1 (by
      simp [countSub, splitFirstAux, colonSpace, List.isPrefixOf, String.toList])
    (by simp [countSub, splitFirstAux, colonOnly, List.isPrefixOf, String.toList])
    "Bob".toList "test".toList (by simp [splitFirstAux, colonOnly, List.isPrefixOf,
      String.toList])
  have h2 := h.2.1 (by simp [pyIsdigit, String.toList])
  rw [h2]
  rfl

/-! ## C6 and C7: pull-strategy ChangeFeed lemmas -/

theorem mem_of_getLast?_eq {α : Type} {l : List α} {m : α}
    (h : l.getLast? = some m) : m ∈ l := by
  obtain ⟨hne, heq⟩ := List.mem_getLast?_eq_getLast h
  rw [heq]
  exact List.getLast_mem hne

theorem pairwise_lt_getLast?_ub {α : Type} (f : α → Int) :
    ∀ {l : List α} {m : α}, List.Pairwise (fun a b => f a < f b) l →
      l.getLast? = some m → ∀ x ∈ l, f x ≤ f m := by
  intro l
  induction l with
  | nil => intro m _ h; simp at h
  | cons a l ih =>
    intro m hp h x hx
    cases l with
    | nil =>
      simp at h hx
      subst h; subst hx; exact le_refl _
    | cons b l' =>
      rw [List.getLast?_cons_cons] at h
      have hp' := List.pairwise_cons.mp hp
      rcases List.mem_cons.mp hx with rfl | hx'
      · exact le_of_lt (hp'.1 m (mem_of_getLast?_eq h))
      · exact ih hp'.2 h x hx'

theorem dbMaxTime_cons (r : MsgRow) (rs : List MsgRow) :
    dbMaxTime (r :: rs)
      = some (match dbMaxTime rs with | none => r.time | some t => max r.time t) := rfl

theorem dbMaxTime_eq_none {store : List MsgRow} :
    dbMaxTime store = none ↔ store = [] := by
  cases store <;> simp [dbMaxTime]

theorem dbMaxTime_mem :
    ∀ {store : List MsgRow} {t : Int}, dbMaxTime store = some t →
      ∃ r, r ∈ store ∧ r.time = t := by
  intro store
  induction store with
  | nil => intro t h; simp [dbMaxTime] at h
  | cons r rs ih =>
    intro t h
    rw [dbMaxTime_cons, Option.some.injEq] at h
    cases hrs : dbMaxTime rs with
    | none =>
      rw [hrs] at h
      exact ⟨r, List.mem_cons_self r rs, h⟩
    | some t' =>
      rw [hrs] at h
      have h' : max r.time t' = t := h
      rcases le_total r.time t' with hle | hle
      · obtain ⟨r', hm, he⟩ := ih hrs
        refine ⟨r', List.mem_cons_of_mem _ hm, ?_⟩
        rw [he, ← h', max_eq_right hle]
      · refine ⟨r, List.mem_cons_self r rs, ?_⟩
        rw [← h', max_eq_left hle]

theorem dbMaxTime_getLast? :
    ∀ {store : List MsgRow} {m : MsgRow}, store.getLast? = some m →
      List.Pairwise (fun a b : MsgRow => a.time < b.time) store →
      dbMaxTime store = some m.time := by
  intro store
  induction store with
  | nil => intro m h _; simp at h
  | cons r rs ih =>
    intro m h hp
    cases rs with
    | nil =>
      simp at h
      subst h; rfl
    | cons r2 rs' =>
      rw [List.getLast?_cons_cons] at h
      have hp' := List.pairwise_cons.mp hp
      have hmax := ih h hp'.2
      rw [dbMaxTime_cons, hmax]
      have hr : r.time < m.time := hp'.1 m (mem_of_getLast?_eq h)
      simp [max_eq_right hr.le]

theorem filter_getLast?_of_sorted :
    ∀ {store : List MsgRow} (wm : Int),
      List.Pairwise (fun a b : MsgRow => a.time < b.time) store →
      queryNewMessages store wm ≠ [] →
      (queryNewMessages store wm).getLast? = store.getLast? := by
  intro store
  induction store with
  | nil => intro wm _ hne; simp [queryNewMessages] at hne
  | cons r rs ih =>
    intro wm hp hne
    have hp' := List.pairwise_cons.mp hp
    by_cases hfrs : queryNewMessages rs wm = []
    · by_cases hr : wm < r.time
      · have hrs_nil : rs = [] := by
          by_contra hrs_ne
          have : queryNewMessages rs wm = rs := by
            rw [queryNewMessages, List.filter_eq_self]
            intro a ha
            have := hp'.1 a ha
            simp only [decide_eq_true_eq]
            omega
          rw [queryNewMessages] at hfrs
          rw [queryNewMessages] at this
          exact hrs_ne (this ▸ hfrs)
        subst hrs_nil
        simp [queryNewMessages, hr]
      · exfalso
        apply hne
        rw [queryNewMessages, List.filter_cons]
        simp only [decide_eq_true_eq]
        rw [if_neg hr]
        exact hfrs
    · have hrs_ne : rs ≠ [] := by
        intro habs
        rw [habs] at hfrs
        exact hfrs rfl
      have hih := ih wm hp'.2 hfrs
      rw [queryNewMessages, List.filter_cons]
      by_cases hr : wm < r.time
      · rw [if_pos (by simpa using hr)]
        have hfil_ne : (queryNewMessages rs wm) ≠ [] := hfrs
        cases hfil : queryNewMessages rs wm with
        | nil => exact absurd hfil hfil_ne
        | cons x xs =>
          rw [queryNewMessages] at hfil
          rw [hfil]
          rw [List.getLast?_cons_cons]
          rw [← hfil]
          show (queryNewMessages rs wm).getLast? = (r :: rs).getLast?
          rw [hih]
          cases rs with
          | nil => exact absurd rfl hrs_ne
          | cons y ys => rw [List.getLast?_cons_cons]
      · rw [if_neg (by simpa using hr)]
        show (queryNewMessages rs wm).getLast? = (r :: rs).getLast?
        rw [hih]
        cases rs with
        | nil => exact absurd rfl hrs_ne
        | cons y ys => rw [List.getLast?_cons_cons]

theorem adjustLastCheck_noskew (store : List MsgRow) (utcNow wm : Int)
    (hb : ∀ r ∈ store, r.time ≤ utcNow) :
    adjustLastCheck (dbMaxTime store) utcNow wm = wm := by
  cases hmax : dbMaxTime store with
  | none => rfl
  | some t =>
    obtain ⟨r, hr, rfl⟩ := dbMaxTime_mem hmax
    rw [adjustLastCheck]
    rw [if_neg (not_lt.mpr (hb r hr))]

theorem checkCycle_eq_of_adjust (store : List MsgRow) (utcNow wm : Int)
    (hadj : adjustLastCheck (dbMaxTime store) utcNow wm = wm) :
    checkCycle store utcNow wm
      = if (queryNewMessages store wm).isEmpty then
          (if wm > utcNow + 5 * msPerMinute then utcNow - msPerHour else wm, [])
        else
          ((match dbMaxTime store with
            | some t => if t ≤ utcNow then t + 1
                else (match (queryNewMessages store wm).getLast? with
                      | some m => m.time + 1 | none => wm)
            | none => (match (queryNewMessages store wm).getLast? with
                      | some m => m.time + 1 | none => wm)),
           feedEmit (queryNewMessages store wm)) := by
  simp only [checkCycle, hadj]

/-- One skew-free polling iteration: the emitted events are exactly the
rows past the watermark (in store order), an empty cycle leaves the
watermark unchanged, a non-empty cycle advances it to the last (maximal)
emitted row's time plus 1 ms, and the watermark stays at most one
millisecond past the clock. -/
theorem checkCycle_noskew (store : List MsgRow) (utcNow wm : Int)
    (hp : List.Pairwise (fun a b : MsgRow => a.time < b.time) store)
    (hb : ∀ r ∈ store, r.time ≤ utcNow)
    (hwm : wm ≤ utcNow + 1) :
    (checkCycle store utcNow wm).2 = feedEmit (queryNewMessages store wm)
    ∧ (queryNewMessages store wm = [] → (checkCycle store utcNow wm).1 = wm)
    ∧ (∀ m, (queryNewMessages store wm).getLast? = some m →
        (checkCycle store utcNow wm).1 = m.time + 1)
    ∧ (checkCycle store utcNow wm).1 ≤ utcNow + 1
    ∧ wm ≤ (checkCycle store utcNow wm).1 := by
  have hadj := adjustLastCheck_noskew store utcNow wm hb
  have hck := checkCycle_eq_of_adjust store utcNow wm hadj
  have h5 : (5 : Int) * msPerMinute = 300000 := by norm_num [msPerMinute]
  by_cases hemp : queryNewMessages store wm = []
  · have hie : (queryNewMessages store wm).isEmpty = true := by
      rw [hemp]; rfl
    have hnogt : ¬(wm > utcNow + 5 * msPerMinute) := by omega
    rw [hck, if_pos hie, if_neg hnogt]
    refine ⟨by rw [hemp]; rfl, fun _ => rfl, ?_, hwm, le_refl wm⟩
    intro m hm
    rw [hemp] at hm
    simp at hm
  · have hie : (queryNewMessages store wm).isEmpty = false := by
      cases hq : queryNewMessages store wm with
      | nil => exact absurd hq hemp
      | cons a l => rfl
    cases hlast : (queryNewMessages store wm).getLast? with
    | none =>
      exfalso
      apply hemp
      cases hq : queryNewMessages store wm with
      | nil => rfl
      | cons a l =>
        rw [hq] at hlast
        have : (a :: l).getLast?.isSome = true := List.getLast?_isSome.mpr (by simp)
        rw [hlast] at this
        simp at this
    | some m =>
      have hstlast : store.getLast? = some m := by
        rw [← filter_getLast?_of_sorted wm hp hemp, hlast]
      have hdbmax : dbMaxTime store = some m.time := dbMaxTime_getLast? hstlast hp
      have hmle : m.time ≤ utcNow := hb m (mem_of_getLast?_eq hstlast)
      have hmemq : m ∈ queryNewMessages store wm := mem_of_getLast?_eq hlast
      have hwmlt : wm < m.time := by
        have := (List.mem_filter.mp hmemq).2
        simpa using this
      rw [hck, if_neg (by rw [hie]; exact Bool.false_ne_true)]
      rw [hdbmax]
      refine ⟨rfl, fun habs => absurd habs hemp, ?_, ?_, ?_⟩
      · intro m' hm'
        have hm2 : m = m' := Option.some.inj hm'
        subst hm2
        show (if m.time ≤ utcNow then m.time + 1 else _) = m.time + 1
        rw [if_pos hmle]
      · show (if m.time ≤ utcNow then m.time + 1 else _) ≤ utcNow + 1
        rw [if_pos hmle]
        omega
      · show wm ≤ (if m.time ≤ utcNow then m.time + 1 else _)
        rw [if_pos hmle]
        omega

/-- Several skew-free polling iterations over a store that grows with
strictly increasing timestamps: the concatenated emissions are pairwise
strictly time-increasing images of inserted rows past the initial
watermark, and the final watermark is the last emitted time plus 1 ms (or
the initial watermark when nothing was emitted). -/
theorem runCycles_spec (utcNow : Int) :
    ∀ (batches : List (List MsgRow)) (store : List MsgRow) (wm : Int),
      List.Pairwise (fun a b : MsgRow => a.time < b.time) (store ++ batches.join) →
      (∀ r ∈ store ++ batches.join, r.time ≤ utcNow) →
      wm ≤ utcNow + 1 →
      List.Pairwise (fun e e' : DanmakuEvent => e.time < e'.time)
          (runCycles utcNow store wm batches).2
      ∧ (∀ e ∈ (runCycles utcNow store wm batches).2,
          ∃ r, r ∈ store ++ batches.join ∧ e = eventOfRow r ∧ wm < r.time)
      ∧ ((runCycles utcNow store wm batches).2 = [] →
          (runCycles utcNow store wm batches).1 = wm)
      ∧ (∀ m, (runCycles utcNow store wm batches).2.getLast? = some m →
          (runCycles utcNow store wm batches).1 = m.time + 1)
      ∧ (runCycles utcNow store wm batches).1 ≤ utcNow + 1
      ∧ wm ≤ (runCycles utcNow store wm batches).1
      ∧ (∀ e ∈ (runCycles utcNow store wm batches).2,
          e.time < (runCycles utcNow store wm batches).1) := by
  intro batches
  induction batches with
  | nil =>
    intro store wm hp hb hwm
    refine ⟨List.Pairwise.nil, ?_, fun _ => rfl, ?_, hwm, le_refl wm, ?_⟩
    · intro e he; simp [runCycles] at he
    · intro m hm; simp [runCycles] at hm
    · intro e he; simp [runCycles] at he
  | cons b rest ih =>
    intro store wm hp hb hwm
    have hassoc : store ++ (b :: rest).join = (store ++ b) ++ rest.join :=
      (List.append_assoc store b rest.join).symm
    rw [hassoc] at hp hb ⊢
    have hp1 : List.Pairwise (fun a b : MsgRow => a.time < b.time) (store ++ b) :=
      List.Pairwise.sublist (List.sublist_append_left (store ++ b) rest.join) hp
    have hb1 : ∀ r ∈ store ++ b, r.time ≤ utcNow := fun r hr =>
      hb r (List.mem_append_left _ hr)
    have hcc := checkCycle_noskew (store ++ b) utcNow wm hp1 hb1 hwm
    have hwm1 : (checkCycle (store ++ b) utcNow wm).1 ≤ utcNow + 1 := hcc.2.2.2.1
    have hwm_le : wm ≤ (checkCycle (store ++ b) utcNow wm).1 := hcc.2.2.2.2
    have hih := ih (store ++ b) (checkCycle (store ++ b) utcNow wm).1 hp hb hwm1
    obtain ⟨ih1, ih2, ih3, ih4, ih5, ih6, ih7⟩ := hih
    have hrun1 : (runCycles utcNow store wm (b :: rest)).1
        = (runCycles utcNow (store ++ b) (checkCycle (store ++ b) utcNow wm).1 rest).1 :=
      rfl
    have hrun2 : (runCycles utcNow store wm (b :: rest)).2
        = (checkCycle (store ++ b) utcNow wm).2
          ++ (runCycles utcNow (store ++ b) (checkCycle (store ++ b) utcNow wm).1 rest).2 :=
      rfl
    have hout1 : (checkCycle (store ++ b) utcNow wm).2
        = feedEmit (queryNewMessages (store ++ b) wm) := hcc.1
    have hq_pair : List.Pairwise (fun a b : MsgRow => a.time < b.time)
        (queryNewMessages (store ++ b) wm) :=
      List.Pairwise.sublist (List.filter_sublist (store ++ b)) hp1
    have hout1_pair : List.Pairwise (fun e e' : DanmakuEvent => e.time < e'.time)
        (checkCycle (store ++ b) utcNow wm).2 := by
      rw [hout1]
      exact List.pairwise_map.mpr hq_pair
    have hout1_lt : ∀ e ∈ (checkCycle (store ++ b) utcNow wm).2,
        e.time < (checkCycle (store ++ b) utcNow wm).1 := by
      intro e he
      rw [hout1] at he
      obtain ⟨r, hrq, rfl⟩ := List.mem_map.mp he
      cases hql : (queryNewMessages (store ++ b) wm).getLast? with
      | none =>
        exfalso
        cases hq : queryNewMessages (store ++ b) wm with
        | nil => rw [hq] at hrq; simp at hrq
        | cons a l =>
          rw [hq] at hql
          have hs : (a :: l).getLast?.isSome = true :=
            List.getLast?_isSome.mpr (by simp)
          rw [hql] at hs
          simp at hs
      | some mlast =>
        have hwm1_eq : (checkCycle (store ++ b) utcNow wm).1 = mlast.time + 1 :=
          hcc.2.2.1 mlast hql
        have hle := pairwise_lt_getLast?_ub MsgRow.time hq_pair hql r hrq
        show (eventOfRow r).time < _
        rw [hwm1_eq]
        show r.time < mlast.time + 1
        omega
    have hout1_prov : ∀ e ∈ (checkCycle (store ++ b) utcNow wm).2,
        ∃ r, r ∈ store ++ b ∧ e = eventOfRow r ∧ wm < r.time := by
      intro e he
      rw [hout1] at he
      obtain ⟨r, hrq, rfl⟩ := List.mem_map.mp he
      have hmem := (List.mem_filter.mp hrq).1
      have hlt : wm < r.time := by
        have := (List.mem_filter.mp hrq).2
        simpa using this
      exact ⟨r, hmem, rfl, hlt⟩
    refine ⟨?_, ?_, ?_, ?_, ?_, ?_, ?_⟩
    · rw [hrun2]
      refine List.pairwise_append.mpr ⟨hout1_pair, ih1, ?_⟩
      intro e1 he1 e2 he2
      obtain ⟨r, _, rfl, hlt⟩ := ih2 e2 he2
      have h1 := hout1_lt e1 he1
      show e1.time < (eventOfRow r).time
      show e1.time < r.time
      omega
    · intro e he
      rw [hrun2] at he
      rcases List.mem_append.mp he with h1 | h2
      · obtain ⟨r, hmem, hev, hlt⟩ := hout1_prov e h1
        exact ⟨r, List.mem_append_left _ hmem, hev, hlt⟩
      · obtain ⟨r, hmem, hev, hlt⟩ := ih2 e h2
        exact ⟨r, hmem, hev, lt_of_le_of_lt hwm_le hlt⟩
    · intro hnil
      rw [hrun2] at hnil
      obtain ⟨h1, h2⟩ := List.append_eq_nil.mp hnil
      have hq_nil : queryNewMessages (store ++ b) wm = [] := by
        rw [hout1] at h1
        exact List.map_eq_nil.mp h1
      have hwm1_eq : (checkCycle (store ++ b) utcNow wm).1 = wm := hcc.2.1 hq_nil
      rw [hrun1, ih3 h2, hwm1_eq]
    · intro m hm
      rw [hrun2] at hm
      cases hout2 :
          (runCycles utcNow (store ++ b) (checkCycle (store ++ b) utcNow wm).1 rest).2 with
      | nil =>
        rw [hout2, List.append_nil] at hm
        rw [hout1, feedEmit, List.getLast?_map] at hm
        cases hql : (queryNewMessages (store ++ b) wm).getLast? with
        | none => rw [hql] at hm; simp at hm
        | some mlast =>
          rw [hql] at hm
          simp only [Option.map_some'] at hm
          have hme : eventOfRow mlast = m := Option.some.inj hm
          have hwm1_eq : (checkCycle (store ++ b) utcNow wm).1 = mlast.time + 1 :=
            hcc.2.2.1 mlast hql
          rw [hrun1, ih3 hout2, hwm1_eq, ← hme]
          rfl
      | cons e2 l2 =>
        rw [hout2, List.getLast?_append_of_ne_nil _ (by simp)] at hm
        rw [hrun1]
        rw [← hout2] at hm
        exact ih4 m hm
    · rw [hrun1]; exact ih5
    · rw [hrun1]; exact le_trans hwm_le ih6
    · intro e he
      rw [hrun2] at he
      rw [hrun1]
      rcases List.mem_append.mp he with h1 | h2
      · exact lt_of_lt_of_le (hout1_lt e h1) ih6
      · exact ih7 e h2

/-- C6: in a skew-free run of the pull strategy, each cycle queries rows
strictly past the watermark and emits them in store (ascending-time)
order; a cycle that emitted nothing leaves the watermark unchanged, and a
cycle that emitted advances it to the last emitted row's time plus 1 ms;
hence over any cycles whose insertions have strictly increasing
timestamps, the emitted events are strictly time-increasing images of
inserted rows past the initial watermark, and the final watermark is the
maximal emitted timestamp plus 1 ms (the initial watermark when nothing
was emitted). -/
theorem C6_pull_cycle_watermark (utcNow : Int) :
    (∀ (store : List MsgRow) (wm : Int),
        List.Pairwise (fun a b : MsgRow => a.time < b.time) store →
        (∀ r ∈ store, r.time ≤ utcNow) → wm ≤ utcNow + 1 →
        (checkCycle store utcNow wm).2 = feedEmit (queryNewMessages store wm)
        ∧ (queryNewMessages store wm = [] → (checkCycle store utcNow wm).1 = wm)
        ∧ (∀ m, (queryNewMessages store wm).getLast? = some m →
            (checkCycle store utcNow wm).1 = m.time + 1))
    ∧ (∀ (store0 : List MsgRow) (batches : List (List MsgRow)) (wm0 : Int),
        List.Pairwise (fun a b : MsgRow => a.time < b.time) (store0 ++ batches.join) →
        (∀ r ∈ store0 ++ batches.join, r.time ≤ utcNow) → wm0 ≤ utcNow + 1 →
        List.Pairwise (fun e e' : DanmakuEvent => e.time < e'.time)
            (runCycles utcNow store0 wm0 batches).2
        ∧ (∀ e ∈ (runCycles utcNow store0 wm0 batches).2,
            ∃ r, r ∈ store0 ++ batches.join ∧ e = eventOfRow r ∧ wm0 < r.time)
        ∧ ((runCycles utcNow store0 wm0 batches).2 = [] →
            (runCycles utcNow store0 wm0 batches).1 = wm0)
        ∧ (∀ m, (runCycles utcNow store0 wm0 batches).2.getLast? = some m →
            (runCycles utcNow store0 wm0 batches).1 = m.time + 1
            ∧ ∀ e ∈ (runCycles utcNow store0 wm0 batches).2, e.time ≤ m.time)) := by
  constructor
  · intro store wm hp hb hwm
    have h := checkCycle_noskew store utcNow wm hp hb hwm
    exact ⟨h.1, h.2.1, h.2.2.1⟩
  · intro store0 batches wm0 hp hb hwm
    have h := runCycles_spec utcNow batches store0 wm0 hp hb hwm
    refine ⟨h.1, h.2.1, h.2.2.1, ?_⟩
    intro m hm
    exact ⟨h.2.2.2.1 m hm, pairwise_lt_getLast?_ub DanmakuEvent.time h.1 hm⟩

/-- Witness for C6: two cycles, one row inserted before each (times 100
and 200, clock 1000), starting from watermark 0. -/
theorem C6_witness :
    List.Pairwise (fun e e' : DanmakuEvent => e.time < e'.time)
      (runCycles 1000 [] 0
        [[⟨100, "u1", "g1", "", "m1"⟩], [⟨200, "u2", "g2", "", "m2"⟩]]).2
    ∧ (checkCycle [⟨100, "u1", "g1", "", "m1"⟩] 1000 0).2
      = feedEmit (queryNewMessages [⟨100, "u1", "g1", "", "m1"⟩] 0) :=
  ⟨((C6_pull_cycle_watermark 1000).2 []
      [[⟨100, "u1", "g1", "", "m1"⟩], [⟨200, "u2", "g2", "", "m2"⟩]] 0
      (by decide) (by decide) (by decide)).1,
   ((C6_pull_cycle_watermark 1000).1 [⟨100, "u1", "g1", "", "m1"⟩] 0
      (by decide) (by decide) (by decide)).1⟩

/-- C7 counterexample: with the feed's clock at 0 and the store's max
timestamp 49 hours ahead (beyond any tens-of-minutes tolerance), the code
clamps the query lower bound to `now - 5 minutes`, not `now - 1 hour`; and
with the store only 1 hour ahead (already more than tens of minutes) no
clamp happens at all. -/
theorem C7_counterexample :
    adjustLastCheck (dbMaxTime [⟨49 * msPerHour, "u", "g", "", "m"⟩]) 0 0
      = 0 - 5 * msPerMinute
    ∧ 0 - 5 * msPerMinute ≠ 0 - msPerHour
    ∧ adjustLastCheck (some msPerHour) 0 0 = 0 := by
  refine ⟨by decide, by decide, by decide⟩

/-- C7 amended: the store-clock guard triggers only when the store's max
timestamp exceeds the feed's clock by more than 48 hours, and then clamps
the query lower bound to `now - 5 minutes` (a future excess within 48
hours, or a past max, leaves the watermark as the lower bound); the cycle
emits exactly the query at that adjusted bound; and on a cycle that
emitted nothing with the (adjusted) watermark more than 5 minutes in the
future, the watermark is reset to `now - 1 hour`. -/
theorem C7_amended_clock_skew (store : List MsgRow) (utcNow lastCheck : Int) :
    (∀ t, dbMaxTime store = some t → t - utcNow > 48 * msPerHour →
        adjustLastCheck (dbMaxTime store) utcNow lastCheck
          = utcNow - 5 * msPerMinute)
    ∧ (∀ t, dbMaxTime store = some t → t > utcNow → t - utcNow ≤ 48 * msPerHour →
        adjustLastCheck (dbMaxTime store) utcNow lastCheck = lastCheck)
    ∧ (∀ t, dbMaxTime store = some t → t ≤ utcNow →
        adjustLastCheck (dbMaxTime store) utcNow lastCheck = lastCheck)
    ∧ (checkCycle store utcNow lastCheck).2
        = feedEmit (queryNewMessages store
            (adjustLastCheck (dbMaxTime store) utcNow lastCheck))
    ∧ (queryNewMessages store
          (adjustLastCheck (dbMaxTime store) utcNow lastCheck) = [] →
        adjustLastCheck (dbMaxTime store) utcNow lastCheck
          > utcNow + 5 * msPerMinute →
        (checkCycle store utcNow lastCheck).1 = utcNow - msPerHour) := by
  refine ⟨?_, ?_, ?_, ?_, ?_⟩
  · intro t ht hgt
    rw [ht, adjustLastCheck]
    have hpos : (48 : Int) * msPerHour = 172800000 := by norm_num [msPerHour]
    rw [if_pos (by omega), if_pos hgt]
  · intro t ht hgt hle
    rw [ht, adjustLastCheck]
    rw [if_pos hgt, if_neg (not_lt.mpr hle)]
  · intro t ht hle
    rw [ht, adjustLastCheck]
    rw [if_neg (not_lt.mpr hle)]
  · simp only [checkCycle]
    split
    · next hemp => rw [List.isEmpty_iff.mp hemp]; rfl
    · rfl
  · intro hq hgt
    simp only [checkCycle]
    rw [if_pos (by rw [hq]; rfl), if_pos hgt]

/-- Witness for C7's amended theorem: the 49-hours-ahead store clamps the
bound to `-5 min`; an empty store with a watermark 10 hours in the future
resets it to `-1 h`. -/
theorem C7_amended_witness :
    adjustLastCheck (dbMaxTime [⟨49 * msPerHour, "u", "g", "", "m"⟩]) 0 0
      = 0 - 5 * msPerMinute
    ∧ (checkCycle [] 0 (10 * msPerHour)).1 = 0 - msPerHour :=
  ⟨(C7_amended_clock_skew [⟨49 * msPerHour, "u", "g", "", "m"⟩] 0 0).1
      (49 * msPerHour) (by decide) (by decide),
   (C7_amended_clock_skew [] 0 (10 * msPerHour)).2.2.2.2 (by decide) (by decide)⟩

/-- Witness for C9 on a two-connection registry. -/
theorem C9_witness :
    (disconnect ⟨[⟨0, false, 0⟩, ⟨1, false, 1⟩], false, 2, [∅, ∅, ∅]⟩ ⟨0, false, 0⟩).conns
      = [⟨1, false, 1⟩]
    ∧ disconnect (disconnect ⟨[⟨0, false, 0⟩, ⟨1, false, 1⟩], false, 2, [∅, ∅, ∅]⟩ ⟨0, false, 0⟩)
        ⟨0, false, 0⟩
      = disconnect ⟨[⟨0, false, 0⟩, ⟨1, false, 1⟩], false, 2, [∅, ∅, ∅]⟩ ⟨0, false, 0⟩ := by
  constructor
  · have := (C9_disconnect_idempotent ⟨[⟨0, false, 0⟩, ⟨1, false, 1⟩], false, 2, [∅, ∅, ∅]⟩
      ⟨0, false, 0⟩ (by decide)).1 (by decide)
    rw [this.1]
    decide
  · exact (C9_disconnect_idempotent ⟨[⟨0, false, 0⟩, ⟨1, false, 1⟩], false, 2, [∅, ∅, ∅]⟩
      ⟨0, false, 0⟩ (by decide)).2.2

end Danmaku
